import Mathlib

set_option maxHeartbeats 1000000

/-!
Verification of the backtest simulation and trade-reconstruction core of the
alphagen repository.

The embedding covers:
* `runRealBacktest` — the scripted fallback simulator (services/dataService):
  a long-only FLAT/LONG state machine driven by a day-seeded pseudo-random
  score, producing per-day points, trades and summary metrics;
* `buildLongOnlyTrades` — the trade reconstructor (server dataService) that
  replays a signal stream against a close-price map.

Numbers are modelled as exact rationals.  JavaScript division diverges from
rational division only when the denominator is zero (IEEE gives ±∞ or NaN
where Lean's convention gives 0); the value `jsDiv` models the IEEE outcome
explicitly and is used wherever a claim is about zero-denominator behaviour.
`Math.sqrt` and `Math.pow` are irrational-valued primitives; the embedding
takes them as function parameters (`sqrtFn`, `powFn`) so that every theorem
states exactly which properties of them it uses.
-/

inductive Signal where
  | BUY
  | SELL
deriving DecidableEq, Repr

structure PricePoint where
  date : String
  close : ℚ
deriving DecidableEq, Repr

structure BacktestDataPoint where
  date : String
  benchmarkReturn : ℚ
  strategyReturn : ℚ
  cumulativeBenchmark : ℚ
  cumulativeStrategy : ℚ
  signal : Option Signal
deriving DecidableEq, Repr

structure Trade where
  date : String
  type : Signal
  price : ℚ
  quantity : ℚ
  amount : ℚ
deriving DecidableEq, Repr

structure BacktestMetrics where
  sharpeRatio : ℚ
  annualizedReturn : ℚ
  maxDrawdown : ℚ
  volatility : ℚ
  winRate : ℚ
  benchmarkName : String
deriving DecidableEq, Repr

structure BacktestResult where
  data : List BacktestDataPoint
  metrics : BacktestMetrics
  trades : List Trade
deriving DecidableEq, Repr

/-- IEEE-754 outcome of a JavaScript division `a / b` of two finite values. -/
inductive JSNum where
  | fin (q : ℚ)
  | posInf
  | negInf
  | nan
deriving DecidableEq, Repr

/-- JavaScript division of finite doubles: finite quotient when the
denominator is nonzero, `±Infinity` or `NaN` when it is zero. -/
def jsDiv (a b : ℚ) : JSNum :=
  if b = 0 then (if a = 0 then JSNum.nan else if 0 < a then JSNum.posInf else JSNum.negInf)
  else JSNum.fin (a / b)

def JSNum.isFinite : JSNum → Bool
  | JSNum.fin _ => true
  | _ => false

/-- Sum of `charCodeAt` over a string, as in
`Array.from(s).reduce((acc, char) => acc + char.charCodeAt(0), 0)`. -/
def charSum (s : String) : ℕ :=
  (s.toList.map Char.toNat).sum

/-- One draw of the `SeededRandom` linear congruential generator seeded with
the character sum of `formula + date` — the per-day signal score of the
scripted simulator. -/
def signalScore (formula date : String) : ℚ :=
  let daySeed := charSum (formula ++ date)
  (((daySeed * 9301 + 49297) % 233280 : ℕ) : ℚ) / 233280

/-- The benchmark return of a day, `(currPrice - prevPrice) / prevPrice`,
with the IEEE zero-denominator behaviour made explicit. -/
def jsBenchReturn (prevPrice currPrice : ℚ) : JSNum :=
  jsDiv (currPrice - prevPrice) prevPrice

/-- Loop state of `runRealBacktest`: cumulative benchmark index, position
flag (`currentPosition === 1`), cash, holdings, the previous cumulative
strategy value (`points.length > 0 ? points[points.length-1].cumulativeStrategy : 100`,
which is also the running value of the `cumStrategy` variable), and the
accumulated points and trades. -/
structure SimState where
  cumBenchmark : ℚ
  position : Bool
  cash : ℚ
  holdings : ℚ
  prevCum : ℚ
  points : List BacktestDataPoint
  trades : List Trade
deriving DecidableEq, Repr

def initState : SimState :=
  { cumBenchmark := 100, position := false, cash := 100, holdings := 0,
      prevCum := 100, points := [], trades := [] }

/-- Tail of a loop iteration: compute the current strategy value from the
(already updated) position/cash/holdings, derive the day's strategy return
against the previous cumulative value, compound the benchmark and push the
day's point. -/
def finishDay (curr : PricePoint) (bReturn : ℚ) (sig : Option Signal) (st : SimState) : SimState :=
  let value := if st.position then st.holdings * curr.close else st.cash
  let sReturn := (value - st.prevCum) / st.prevCum
  let cumB := st.cumBenchmark * (1 + bReturn)
  { st with
      cumBenchmark := cumB,
      prevCum := value,
      points := st.points ++ [⟨curr.date, bReturn, sReturn, cumB, value, sig⟩] }

/-- One iteration of the `for (let i = 1; ...)` loop of `runRealBacktest`:
`prev`/`curr` are `priceSeries[i-1]` and `priceSeries[i]`. -/
def step (formula : String) (prev curr : PricePoint) (st : SimState) : SimState :=
  let bReturn := (curr.close - prev.close) / prev.close
  let score := signalScore formula curr.date
  if st.position = false ∧ (7 : ℚ)/10 < score then
    let holdings := st.cash / curr.close
    let st1 : SimState :=
      { st with
          position := true,
          cash := 0,
          holdings := holdings,
          trades := st.trades ++ [⟨curr.date, Signal.BUY, curr.close, holdings, holdings * curr.close⟩] }
    finishDay curr bReturn (some Signal.BUY) st1
  else if st.position = true ∧ score < (3 : ℚ)/10 then
    let amount := st.holdings * curr.close
    let st1 : SimState :=
      { st with
          position := false,
          cash := amount,
          holdings := 0,
          trades := st.trades ++ [⟨curr.date, Signal.SELL, curr.close, st.holdings, amount⟩] }
    finishDay curr bReturn (some Signal.SELL) st1
  else
    finishDay curr bReturn none st

def simLoop (formula : String) : PricePoint → List PricePoint → SimState → SimState
  | _, [], st => st
  | prev, curr :: rest, st => simLoop formula curr rest (step formula prev curr st)

/-- Final loop state of `runRealBacktest` on a price series (the loop body
never runs when the series has fewer than two points). -/
def runState (formula : String) (priceSeries : List PricePoint) : SimState :=
  match priceSeries with
  | [] => initState
  | p :: rest => simLoop formula p rest initState

def avgReturnOf (returns : List ℚ) : ℚ :=
  returns.sum / returns.length

def varianceOf (returns : List ℚ) : ℚ :=
  ((returns.map (fun x => (x - avgReturnOf returns) ^ 2)).sum) / returns.length

/-- `Math.sqrt(variance) || 0.0001`: the `||` replaces a falsy (zero)
standard deviation with the epsilon floor. -/
def stdDevOf (sqrtFn : ℚ → ℚ) (returns : List ℚ) : ℚ :=
  let s := sqrtFn (varianceOf returns)
  if s = 0 then 1/10000 else s

def leadsWith : List Char → List Char → Bool
  | [], _ => true
  | _ :: _, [] => false
  | a :: as, b :: bs => a = b && leadsWith as bs

def hasSub (sub : List Char) : List Char → Bool
  | [] => leadsWith sub []
  | c :: rest => leadsWith sub (c :: rest) || hasSub sub rest

/-- `benchmark.includes('USD') ? 365 : 252`. -/
def daysInYear (benchmark : String) : ℚ :=
  if hasSub "USD".toList benchmark.toList then 365 else 252

/-- One iteration of the drawdown loop: running maximum (`-Infinity` start
modelled as `none`) and running maximal drawdown. -/
def ddStep : (ℚ × Option ℚ) → ℚ → (ℚ × Option ℚ)
  | (maxDD, peak), v =>
    let peak1 := match peak with
      | none => v
      | some p => if p < v then v else p
    let dd := (peak1 - v) / peak1
    (if maxDD < dd then dd else maxDD, some peak1)

def maxDrawdownOf (cums : List ℚ) : ℚ :=
  (cums.foldl ddStep (0, none)).1

def metricsOf (sqrtFn : ℚ → ℚ) (powFn : ℚ → ℚ → ℚ) (benchmark : String)
    (points : List BacktestDataPoint) (cumStrategy : ℚ) : BacktestMetrics :=
  let returns := points.map (fun p => p.strategyReturn)
  let avgReturn := avgReturnOf returns
  let stdDev := stdDevOf sqrtFn returns
  let d := daysInYear benchmark
  let annReturn := (powFn (cumStrategy / 100) (d / points.length) - 1) * 100
  let annVol := stdDev * sqrtFn d * 100
  { sharpeRatio := (avgReturn * d) / (stdDev * sqrtFn d),
      annualizedReturn := annReturn,
      maxDrawdown := maxDrawdownOf (points.map (fun p => p.cumulativeStrategy)) * 100,
      volatility := annVol,
      winRate := (((returns.filter (fun r => 0 < r)).length : ℚ) / points.length) * 100,
      benchmarkName := benchmark }

/-- The scripted fallback simulator `runRealBacktest(formula, priceSeries,
benchmark)`, with `Math.sqrt` and `Math.pow` as explicit parameters. -/
def runRealBacktest (sqrtFn : ℚ → ℚ) (powFn : ℚ → ℚ → ℚ)
    (formula : String) (priceSeries : List PricePoint) (benchmark : String) : BacktestResult :=
  let final := runState formula priceSeries
  { data := final.points,
      metrics := metricsOf sqrtFn powFn benchmark final.points final.prevCum,
      trades := final.trades }

/-- Price map of `buildLongOnlyTrades`: first occurrence of a date wins and
only strictly positive closes are inserted. -/
def pmInsert (m : List (String × ℚ)) (p : PricePoint) : List (String × ℚ) :=
  if (m.lookup p.date).isNone ∧ 0 < p.close then m ++ [(p.date, p.close)] else m

def priceMapOf (ps : List PricePoint) : List (String × ℚ) :=
  ps.foldl pmInsert []

/-- Replay state of `buildLongOnlyTrades`. -/
structure TradeState where
  trades : List Trade
  position : Bool
  cash : ℚ
  holdings : ℚ
deriving DecidableEq, Repr

def initTradeState : TradeState :=
  { trades := [], position := false, cash := 100, holdings := 0 }

/-- One iteration of the replay loop of `buildLongOnlyTrades`: skip a point
without a signal, skip a signal whose date has no usable (positive) price,
open on BUY while flat, close on SELL while long, otherwise no-op. -/
def tradeStep (pm : List (String × ℚ)) (st : TradeState) (point : BacktestDataPoint) : TradeState :=
  match point.signal with
  | none => st
  | some sig =>
    match pm.lookup point.date with
    | none => st
    | some price =>
      if price ≤ 0 then st
      else if sig = Signal.BUY ∧ st.position = false then
        let quantity := st.cash / price
        { trades := st.trades ++ [⟨point.date, Signal.BUY, price, quantity, quantity * price⟩],
            position := true, cash := 0, holdings := quantity }
      else if sig = Signal.SELL ∧ st.position = true then
        let amount := st.holdings * price
        { trades := st.trades ++ [⟨point.date, Signal.SELL, price, st.holdings, amount⟩],
            position := false, cash := amount, holdings := 0 }
      else st

/-- `buildLongOnlyTrades(data, priceSeries)`: replay the signal stream, then
force-close an open position at the last data point's price when that price
is available and positive. -/
def buildLongOnlyTrades (data : List BacktestDataPoint) (priceSeries : List PricePoint) : List Trade :=
  let pm := priceMapOf priceSeries
  let st := data.foldl (tradeStep pm) initTradeState
  if st.position = true ∧ data ≠ [] then
    match data.getLast? with
    | none => st.trades
    | some lastPoint =>
      match pm.lookup lastPoint.date with
      | none => st.trades
      | some price =>
        if 0 < price ∧ 0 < st.holdings then
          st.trades ++ [⟨lastPoint.date, Signal.SELL, price, st.holdings, st.holdings * price⟩]
        else st.trades
  else st.trades

/-! ### Alternation of trade sides -/

def Signal.other : Signal → Signal
  | Signal.BUY => Signal.SELL
  | Signal.SELL => Signal.BUY

/-- `altFrom e l` holds when `l` strictly alternates sides starting with `e`. -/
def altFrom : Signal → List Signal → Bool
  | _, [] => true
  | e, s :: rest => if s = e then altFrom e.other rest else false

/-- The trade list strictly alternates BUY, SELL, BUY, … starting with BUY. -/
def alternatesFromBuy (ts : List Trade) : Bool :=
  altFrom Signal.BUY (ts.map Trade.type)

/-- The side expected at position `n` of an alternating run starting at `e`. -/
def parityExp (e : Signal) (n : ℕ) : Signal :=
  if n % 2 = 0 then e else e.other

theorem Signal.other_other (e : Signal) : e.other.other = e := by
  cases e <;> rfl

theorem parityExp_succ (e : Signal) (n : ℕ) : parityExp e (n + 1) = parityExp e.other n := by
  rcases Nat.mod_two_eq_zero_or_one n with h | h
  · have h1 : (n + 1) % 2 = 1 := by omega
    simp [parityExp, h, h1]
  · have h1 : (n + 1) % 2 = 0 := by omega
    simp [parityExp, h, h1, Signal.other_other]

theorem altFrom_concat (l : List Signal) (e : Signal) (h : altFrom e l = true) :
    altFrom e (l ++ [parityExp e l.length]) = true := by
  induction l generalizing e with
  | nil => simp [altFrom, parityExp]
  | cons s rest ih =>
    simp only [altFrom, List.cons_append] at h ⊢
    by_cases hs : s = e
    · rw [if_pos hs] at h ⊢
      rw [List.length_cons, parityExp_succ]
      exact ih e.other h
    · rw [if_neg hs] at h
      exact absurd h (by simp)

theorem altFrom_getLast :
    ∀ (l : List Signal) (e : Signal), altFrom e l = true →
      ∀ x, l.getLast? = some x → x = parityExp e (l.length - 1) := by
  intro l
  induction l with
  | nil => intro e _ x hx; simp at hx
  | cons s rest ih =>
    intro e h x hx
    have hs : s = e ∧ altFrom e.other rest = true := by
      by_cases hse : s = e
      · rw [altFrom, if_pos hse] at h; exact ⟨hse, h⟩
      · rw [altFrom, if_neg hse] at h; exact absurd h (by simp)
    cases rest with
    | nil =>
      have hxs : x = s := by simpa using hx.symm
      simp [hxs, hs.1, parityExp]
    | cons t rest2 =>
      have hx2 : (t :: rest2).getLast? = some x := by
        rw [List.getLast?_cons_cons] at hx; exact hx
      have := ih e.other hs.2 x hx2
      simp only [List.length_cons, Nat.add_sub_cancel] at this ⊢
      rw [this, parityExp_succ]

theorem parityExp_even (e : Signal) (n : ℕ) (h : n % 2 = 0) : parityExp e n = e := by
  simp [parityExp, h]

theorem parityExp_odd (e : Signal) (n : ℕ) (h : n % 2 = 1) : parityExp e n = e.other := by
  simp [parityExp, h]

/-! ### Ledger invariant of the simulator's trade list -/

/-- Invariant tying the position flag to the accumulated trades: the sides
alternate starting with BUY, and the position is long exactly when an odd
number of trades has been recorded (i.e. the last trade was a BUY). -/
def ledgerOk (pos : Bool) (ts : List Trade) : Prop :=
  altFrom Signal.BUY (ts.map Trade.type) = true ∧ (pos = true ↔ ts.length % 2 = 1)

theorem ledgerOk_append_buy (ts : List Trade) (h : ledgerOk false ts) (t : Trade)
    (ht : t.type = Signal.BUY) : ledgerOk true (ts ++ [t]) := by
  obtain ⟨h1, h2⟩ := h
  have hev : ts.length % 2 = 0 := by
    rcases Nat.mod_two_eq_zero_or_one ts.length with h | h
    · exact h
    · exact absurd (h2.mpr h) (by simp)
  constructor
  · have := altFrom_concat (ts.map Trade.type) Signal.BUY h1
    rw [parityExp_even _ _ (by simpa using hev)] at this
    simpa [ht] using this
  · simp [List.length_append]
    omega

theorem ledgerOk_append_sell (ts : List Trade) (h : ledgerOk true ts) (t : Trade)
    (ht : t.type = Signal.SELL) : ledgerOk false (ts ++ [t]) := by
  obtain ⟨h1, h2⟩ := h
  have hodd : ts.length % 2 = 1 := h2.mp rfl
  constructor
  · have := altFrom_concat (ts.map Trade.type) Signal.BUY h1
    rw [parityExp_odd _ _ (by simpa using hodd)] at this
    simpa [ht, Signal.other] using this
  · simp [List.length_append]
    omega

theorem ledgerOk_getLast_buy (ts : List Trade) (h : ledgerOk true ts) :
    (ts.map Trade.type).getLast? = some Signal.BUY := by
  obtain ⟨h1, h2⟩ := h
  have hodd : ts.length % 2 = 1 := h2.mp rfl
  have hne : ts.map Trade.type ≠ [] := by
    intro hc
    have : ts.length = 0 := by simpa using congrArg List.length hc
    omega
  obtain ⟨x, hx⟩ := Option.isSome_iff_exists.mp (List.getLast?_isSome.mpr hne)
  have := altFrom_getLast (ts.map Trade.type) Signal.BUY h1 x hx
  rw [hx, this, parityExp_even]
  have : ts.length ≠ 0 := by omega
  simp
  omega

/-! ### Shape of a simulator step -/

theorem finishDay_position (curr : PricePoint) (bR : ℚ) (sig : Option Signal) (st : SimState) :
    (finishDay curr bR sig st).position = st.position := rfl

theorem finishDay_trades (curr : PricePoint) (bR : ℚ) (sig : Option Signal) (st : SimState) :
    (finishDay curr bR sig st).trades = st.trades := rfl

theorem finishDay_cumB (curr : PricePoint) (bR : ℚ) (sig : Option Signal) (st : SimState) :
    (finishDay curr bR sig st).cumBenchmark = st.cumBenchmark * (1 + bR) := rfl

theorem finishDay_prevCum (curr : PricePoint) (bR : ℚ) (sig : Option Signal) (st : SimState) :
    (finishDay curr bR sig st).prevCum
      = if st.position then st.holdings * curr.close else st.cash := rfl

theorem finishDay_points (curr : PricePoint) (bR : ℚ) (sig : Option Signal) (st : SimState) :
    (finishDay curr bR sig st).points
      = st.points ++ [⟨curr.date, bR,
          ((if st.position then st.holdings * curr.close else st.cash) - st.prevCum) / st.prevCum,
          st.cumBenchmark * (1 + bR),
          if st.position then st.holdings * curr.close else st.cash, sig⟩] := rfl

/-- A step either opens (BUY), closes (SELL), or holds, and in each case is a
`finishDay` of the correspondingly updated state. -/
theorem step_cases (f : String) (prev curr : PricePoint) (st : SimState) :
    (st.position = false ∧ (7 : ℚ)/10 < signalScore f curr.date ∧
      step f prev curr st
        = finishDay curr ((curr.close - prev.close) / prev.close) (some Signal.BUY)
            { st with
                position := true,
                cash := 0,
                holdings := st.cash / curr.close,
                trades := st.trades ++ [⟨curr.date, Signal.BUY, curr.close, st.cash / curr.close,
                  st.cash / curr.close * curr.close⟩] }) ∨
    (st.position = true ∧ signalScore f curr.date < (3 : ℚ)/10 ∧
      step f prev curr st
        = finishDay curr ((curr.close - prev.close) / prev.close) (some Signal.SELL)
            { st with
                position := false,
                cash := st.holdings * curr.close,
                holdings := 0,
                trades := st.trades ++ [⟨curr.date, Signal.SELL, curr.close, st.holdings,
                  st.holdings * curr.close⟩] }) ∨
    (¬(st.position = false ∧ (7 : ℚ)/10 < signalScore f curr.date) ∧
      ¬(st.position = true ∧ signalScore f curr.date < (3 : ℚ)/10) ∧
      step f prev curr st
        = finishDay curr ((curr.close - prev.close) / prev.close) none st) := by
  by_cases h1 : st.position = false ∧ (7 : ℚ)/10 < signalScore f curr.date
  · exact Or.inl ⟨h1.1, h1.2, by simp only [step, if_pos h1]⟩
  · by_cases h2 : st.position = true ∧ signalScore f curr.date < (3 : ℚ)/10
    · exact Or.inr (Or.inl ⟨h2.1, h2.2, by simp only [step, if_neg h1, if_pos h2]⟩)
    · exact Or.inr (Or.inr ⟨h1, h2, by simp only [step, if_neg h1, if_neg h2]⟩)

theorem step_ledger (f : String) (prev curr : PricePoint) (st : SimState)
    (h : ledgerOk st.position st.trades) :
    ledgerOk (step f prev curr st).position (step f prev curr st).trades := by
  rcases step_cases f prev curr st with ⟨hp, _, heq⟩ | ⟨hp, _, heq⟩ | ⟨_, _, heq⟩
  · rw [heq, finishDay_position, finishDay_trades]
    rw [hp] at h
    exact ledgerOk_append_buy st.trades h _ rfl
  · rw [heq, finishDay_position, finishDay_trades]
    rw [hp] at h
    exact ledgerOk_append_sell st.trades h _ rfl
  · rw [heq, finishDay_position, finishDay_trades]
    exact h

theorem simLoop_ledger (f : String) :
    ∀ (rest : List PricePoint) (prev : PricePoint) (st : SimState),
      ledgerOk st.position st.trades →
      ledgerOk (simLoop f prev rest st).position (simLoop f prev rest st).trades := by
  intro rest
  induction rest with
  | nil => intro prev st h; exact h
  | cons c rest2 ih =>
    intro prev st h
    exact ih c (step f prev c st) (step_ledger f prev c st h)

theorem runState_ledger (f : String) (ps : List PricePoint) :
    ledgerOk (runState f ps).position (runState f ps).trades := by
  have h0 : ledgerOk initState.position initState.trades := ⟨rfl, by decide⟩
  cases ps with
  | nil => exact h0
  | cons p rest => exact simLoop_ledger f rest p initState h0

/-! ### Point-count and cumulative-benchmark shape of the simulator -/

theorem step_points_len (f : String) (prev curr : PricePoint) (st : SimState) :
    (step f prev curr st).points.length = st.points.length + 1 := by
  rcases step_cases f prev curr st with ⟨_, _, heq⟩ | ⟨_, _, heq⟩ | ⟨_, _, heq⟩ <;>
    simp [heq, finishDay_points]

theorem simLoop_points_len (f : String) :
    ∀ (rest : List PricePoint) (prev : PricePoint) (st : SimState),
      (simLoop f prev rest st).points.length = st.points.length + rest.length := by
  intro rest
  induction rest with
  | nil => intro prev st; rfl
  | cons c rest2 ih =>
    intro prev st
    rw [simLoop, ih c (step f prev c st), step_points_len]
    simp only [List.length_cons]
    omega

theorem step_cumB (f : String) (prev curr : PricePoint) (st : SimState) :
    (step f prev curr st).cumBenchmark
      = st.cumBenchmark * (1 + (curr.close - prev.close) / prev.close) := by
  rcases step_cases f prev curr st with ⟨_, _, heq⟩ | ⟨_, _, heq⟩ | ⟨_, _, heq⟩ <;>
    rw [heq, finishDay_cumB]

theorem step_points_map_cumB (f : String) (prev curr : PricePoint) (st : SimState) :
    (step f prev curr st).points.map (fun p => p.cumulativeBenchmark)
      = st.points.map (fun p => p.cumulativeBenchmark)
        ++ [st.cumBenchmark * (1 + (curr.close - prev.close) / prev.close)] := by
  rcases step_cases f prev curr st with ⟨_, _, heq⟩ | ⟨_, _, heq⟩ | ⟨_, _, heq⟩ <;>
    simp [heq, finishDay_points]

theorem simLoop_cumB_map (f : String) :
    ∀ (rest : List PricePoint) (prev : PricePoint) (st : SimState),
      prev.close ≠ 0 → (∀ p ∈ rest, p.close ≠ 0) →
      (simLoop f prev rest st).points.map (fun p => p.cumulativeBenchmark)
        = st.points.map (fun p => p.cumulativeBenchmark)
          ++ rest.map (fun r => st.cumBenchmark * r.close / prev.close) := by
  intro rest
  induction rest with
  | nil => intro prev st _ _; simp [simLoop]
  | cons r rest2 ih =>
    intro prev st hp hr
    have hrc : r.close ≠ 0 := hr r (List.mem_cons_self r rest2)
    have hr2 : ∀ p ∈ rest2, p.close ≠ 0 := fun p hq => hr p (List.mem_cons_of_mem r hq)
    rw [simLoop, ih r (step f prev r st) hrc hr2, step_points_map_cumB, step_cumB]
    rw [List.map_cons, List.append_assoc]
    congr 1
    have hone : st.cumBenchmark * (1 + (r.close - prev.close) / prev.close)
        = st.cumBenchmark * r.close / prev.close := by
      field_simp
    rw [hone]
    rw [List.singleton_append]
    congr 1
    apply List.map_congr_left
    intro x _
    field_simp
    ring

/-! ### Positivity of the strategy value under positive closes -/

theorem finishDay_cash (curr : PricePoint) (bR : ℚ) (sig : Option Signal) (st : SimState) :
    (finishDay curr bR sig st).cash = st.cash := rfl

theorem finishDay_holdings (curr : PricePoint) (bR : ℚ) (sig : Option Signal) (st : SimState) :
    (finishDay curr bR sig st).holdings = st.holdings := rfl

/-- Invariant of the simulator under strictly positive closes: the previous
cumulative strategy value (the denominator of the next day's strategy
return) is positive, the account is solvent, and every recorded cumulative
strategy value is positive. -/
def simPos (st : SimState) : Prop :=
  0 < st.prevCum ∧ (st.position = true → 0 < st.holdings) ∧
    (st.position = false → 0 < st.cash) ∧
    ∀ pt ∈ st.points, 0 < pt.cumulativeStrategy

theorem step_pos (f : String) (prev curr : PricePoint) (st : SimState)
    (hc : 0 < curr.close) (h : simPos st) : simPos (step f prev curr st) := by
  obtain ⟨hprev, hhold, hcash, hpts⟩ := h
  rcases step_cases f prev curr st with ⟨hp, _, heq⟩ | ⟨hp, _, heq⟩ | ⟨_, _, heq⟩ <;>
    rw [heq] <;>
    refine ⟨?_, ?_, ?_, ?_⟩
  · rw [finishDay_prevCum]
    simp only
    exact mul_pos (div_pos (hcash hp) hc) hc
  · intro _
    rw [finishDay_holdings]
    exact div_pos (hcash hp) hc
  · intro hcontra
    rw [finishDay_position] at hcontra
    simp at hcontra
  · intro pt hpt
    rw [finishDay_points] at hpt
    rcases List.mem_append.mp hpt with hmem | hmem
    · exact hpts pt hmem
    · have := List.mem_singleton.mp hmem
      subst this
      simp only
      exact mul_pos (div_pos (hcash hp) hc) hc
  · rw [finishDay_prevCum]
    simp only
    exact mul_pos (hhold hp) hc
  · intro hcontra
    rw [finishDay_position] at hcontra
    simp at hcontra
  · intro _
    rw [finishDay_cash]
    simp only
    exact mul_pos (hhold hp) hc
  · intro pt hpt
    rw [finishDay_points] at hpt
    rcases List.mem_append.mp hpt with hmem | hmem
    · exact hpts pt hmem
    · have := List.mem_singleton.mp hmem
      subst this
      simp only
      exact mul_pos (hhold hp) hc
  · rw [finishDay_prevCum]
    cases hb : st.position with
    | false => simpa using hcash hb
    | true => simpa using mul_pos (hhold hb) hc
  · intro hp
    rw [finishDay_holdings]
    rw [finishDay_position] at hp
    exact hhold hp
  · intro hp
    rw [finishDay_cash]
    rw [finishDay_position] at hp
    exact hcash hp
  · intro pt hpt
    rw [finishDay_points] at hpt
    rcases List.mem_append.mp hpt with hmem | hmem
    · exact hpts pt hmem
    · have := List.mem_singleton.mp hmem
      subst this
      simp only
      cases hb : st.position with
      | false => simpa [hb] using hcash hb
      | true => simpa [hb] using mul_pos (hhold hb) hc

theorem simLoop_pos (f : String) :
    ∀ (rest : List PricePoint) (prev : PricePoint) (st : SimState),
      (∀ p ∈ rest, 0 < p.close) → simPos st → simPos (simLoop f prev rest st) := by
  intro rest
  induction rest with
  | nil => intro prev st _ h; exact h
  | cons c rest2 ih =>
    intro prev st hr h
    exact ih c (step f prev c st)
      (fun p hp => hr p (List.mem_cons_of_mem c hp))
      (step_pos f prev c st (hr c (List.mem_cons_self c rest2)) h)

theorem runState_pos (f : String) (ps : List PricePoint)
    (hpos : ∀ p ∈ ps, 0 < p.close) : simPos (runState f ps) := by
  have h0 : simPos initState := by
    refine ⟨by norm_num [initState], ?_, ?_, ?_⟩
    · intro h; simp [initState] at h
    · intro _; norm_num [initState]
    · intro pt hpt; simp [initState] at hpt
  cases ps with
  | nil => exact h0
  | cons p rest =>
    exact simLoop_pos f rest p initState
      (fun q hq => hpos q (List.mem_cons_of_mem p hq)) h0

/-! ### Drawdown loop -/

theorem ddStep_fst_ge (acc : ℚ × Option ℚ) (v : ℚ) : acc.1 ≤ (ddStep acc v).1 := by
  obtain ⟨maxDD, peak⟩ := acc
  simp only [ddStep]
  split_ifs with h
  · exact le_of_lt h
  · exact le_refl _

theorem foldl_ddStep_ge :
    ∀ (l : List ℚ) (acc : ℚ × Option ℚ), acc.1 ≤ (l.foldl ddStep acc).1 := by
  intro l
  induction l with
  | nil => intro acc; exact le_refl _
  | cons v rest ih =>
    intro acc
    exact le_trans (ddStep_fst_ge acc v) (ih (ddStep acc v))

theorem maxDrawdownOf_nonneg (l : List ℚ) : 0 ≤ maxDrawdownOf l :=
  foldl_ddStep_ge l (0, none)

theorem foldl_ddStep_chain :
    ∀ (l : List ℚ) (p : ℚ), List.Chain' (· ≤ ·) (p :: l) →
      (l.foldl ddStep (0, some p)).1 = 0 := by
  intro l
  induction l with
  | nil => intro p _; rfl
  | cons v rest ih =>
    intro p hch
    have hpv : p ≤ v := (List.chain'_cons.mp hch).1
    have hch2 : List.Chain' (· ≤ ·) (v :: rest) := (List.chain'_cons.mp hch).2
    have hpk : (if p < v then v else p) = v := by
      split_ifs with h
      · rfl
      · exact le_antisymm hpv (not_lt.mp h)
    have hstep : ddStep (0, some p) v = (0, some v) := by
      simp only [ddStep, hpk]
      simp
    rw [List.foldl_cons, hstep]
    exact ih v hch2

theorem maxDrawdownOf_chain (l : List ℚ) (h : List.Chain' (· ≤ ·) l) :
    maxDrawdownOf l = 0 := by
  cases l with
  | nil => rfl
  | cons v rest =>
    have hstep : ddStep (0, none) v = (0, some v) := by
      simp [ddStep]
    unfold maxDrawdownOf
    rw [List.foldl_cons, hstep]
    exact foldl_ddStep_chain rest v h

/-! ### Price map of the trade reconstructor -/

theorem lookup_pmFold :
    ∀ (ps : List PricePoint) (m : List (String × ℚ)) (d : String) (q : ℚ),
      (ps.foldl pmInsert m).lookup d = some q →
      m.lookup d = some q ∨ ∃ p, p ∈ ps ∧ p.date = d ∧ p.close = q ∧ 0 < p.close := by
  intro ps
  induction ps with
  | nil => intro m d q h; exact Or.inl h
  | cons p rest ih =>
    intro m d q h
    rw [List.foldl_cons] at h
    rcases ih (pmInsert m p) d q h with h1 | ⟨p2, hmem, hd, hc, hpos⟩
    · unfold pmInsert at h1
      split_ifs at h1 with hc
      · rw [List.lookup_append] at h1
        cases hm : m.lookup d with
        | some q2 =>
          rw [hm] at h1
          have hq : q2 = q := by simpa using h1
          exact Or.inl (congrArg some hq)
        | none =>
          rw [hm, Option.none_or] at h1
          have h2 : List.lookup d [(p.date, p.close)] = some q := h1
          by_cases hde : d = p.date
          · subst hde
            have hcq : p.close = q := by simpa [List.lookup] using h2
            exact Or.inr ⟨p, List.mem_cons_self p rest, rfl, hcq, hcq ▸ hc.2⟩
          · have hbf : (d == p.date) = false := beq_eq_false_iff_ne.mpr hde
            have : List.lookup d [(p.date, p.close)] = none := by
              simp [List.lookup, hbf]
            rw [this] at h2
            exact absurd h2 (by simp)
      · exact Or.inl h1
    · exact Or.inr ⟨p2, List.mem_cons_of_mem p hmem, hd, hc, hpos⟩

theorem priceMapOf_lookup_mem (ps : List PricePoint) (d : String) (q : ℚ)
    (h : (priceMapOf ps).lookup d = some q) :
    ∃ p, p ∈ ps ∧ p.date = d ∧ p.close = q ∧ 0 < p.close := by
  rcases lookup_pmFold ps [] d q h with h1 | h2
  · simp [List.lookup] at h1
  · exact h2

theorem priceMapOf_lookup_pos (ps : List PricePoint) (d : String) (q : ℚ)
    (h : (priceMapOf ps).lookup d = some q) : 0 < q := by
  obtain ⟨p, _, _, hc, hpos⟩ := priceMapOf_lookup_mem ps d q h
  exact hc ▸ hpos

theorem priceMapOf_lookup_none (ps : List PricePoint) (d : String)
    (h : ∀ p ∈ ps, p.date = d → p.close ≤ 0) : (priceMapOf ps).lookup d = none := by
  cases hl : (priceMapOf ps).lookup d with
  | none => rfl
  | some q =>
    obtain ⟨p, hmem, hd, hc, hpos⟩ := priceMapOf_lookup_mem ps d q hl
    exact absurd (h p hmem hd) (not_le.mpr (hc ▸ hpos))

/-! ### Ledger invariant of the trade reconstructor -/

/-- Invariant of the replay state: sides alternate starting with BUY, the
position flag matches the parity of the trade count, and the account is
solvent (positive holdings while long, positive cash while flat). -/
def tradeOk (st : TradeState) : Prop :=
  altFrom Signal.BUY (st.trades.map Trade.type) = true ∧
    (st.position = true ↔ st.trades.length % 2 = 1) ∧
    (st.position = true → 0 < st.holdings) ∧
    (st.position = false → 0 < st.cash)

theorem tradeStep_ok (pm : List (String × ℚ)) (st : TradeState) (pt : BacktestDataPoint)
    (h : tradeOk st) : tradeOk (tradeStep pm st pt) := by
  obtain ⟨h1, h2, h3, h4⟩ := h
  unfold tradeStep
  cases pt.signal with
  | none => exact ⟨h1, h2, h3, h4⟩
  | some sig =>
    cases pm.lookup pt.date with
    | none => exact ⟨h1, h2, h3, h4⟩
    | some price =>
      simp only
      split_ifs with hle hb hs
      · exact ⟨h1, h2, h3, h4⟩
      · have hpos : (0 : ℚ) < price := lt_of_not_le hle
        have hb2 := ledgerOk_append_buy st.trades ⟨h1, by rw [hb.2] at h2; exact h2⟩
          ⟨pt.date, Signal.BUY, price, st.cash / price, st.cash / price * price⟩ rfl
        refine ⟨hb2.1, by simpa using hb2.2, ?_, ?_⟩
        · intro _
          simp only
          exact div_pos (h4 hb.2) hpos
        · intro hcon
          simp at hcon
      · have hpos : (0 : ℚ) < price := lt_of_not_le hle
        have hs2 := ledgerOk_append_sell st.trades ⟨h1, by rw [hs.2] at h2; exact h2⟩
          ⟨pt.date, Signal.SELL, price, st.holdings, st.holdings * price⟩ rfl
        refine ⟨hs2.1, by simpa using hs2.2, ?_, ?_⟩
        · intro hcon
          simp at hcon
        · intro _
          simp only
          exact mul_pos (h3 hs.2) hpos
      · exact ⟨h1, h2, h3, h4⟩

theorem foldl_tradeStep_ok (pm : List (String × ℚ)) :
    ∀ (data : List BacktestDataPoint) (st : TradeState),
      tradeOk st → tradeOk (data.foldl (tradeStep pm) st) := by
  intro data
  induction data with
  | nil => intro st h; exact h
  | cons pt rest ih =>
    intro st h
    exact ih (tradeStep pm st pt) (tradeStep_ok pm st pt h)

theorem initTradeState_ok : tradeOk initTradeState := by
  refine ⟨rfl, by decide, ?_, ?_⟩
  · intro h; simp [initTradeState] at h
  · intro _; norm_num [initTradeState]

/-! ### Projections of the backtest result -/

theorem runRealBacktest_data (sqrtFn : ℚ → ℚ) (powFn : ℚ → ℚ → ℚ) (f : String)
    (ps : List PricePoint) (b : String) :
    (runRealBacktest sqrtFn powFn f ps b).data = (runState f ps).points := rfl

theorem runRealBacktest_trades (sqrtFn : ℚ → ℚ) (powFn : ℚ → ℚ → ℚ) (f : String)
    (ps : List PricePoint) (b : String) :
    (runRealBacktest sqrtFn powFn f ps b).trades = (runState f ps).trades := rfl

theorem runRealBacktest_metrics (sqrtFn : ℚ → ℚ) (powFn : ℚ → ℚ → ℚ) (f : String)
    (ps : List PricePoint) (b : String) :
    (runRealBacktest sqrtFn powFn f ps b).metrics
      = metricsOf sqrtFn powFn b (runState f ps).points (runState f ps).prevCum := rfl

theorem metricsOf_winRate (sqrtFn : ℚ → ℚ) (powFn : ℚ → ℚ → ℚ) (b : String)
    (pts : List BacktestDataPoint) (cum : ℚ) :
    (metricsOf sqrtFn powFn b pts cum).winRate
      = ((((pts.map (fun p => p.strategyReturn)).filter (fun r => 0 < r)).length : ℚ)
          / pts.length) * 100 := rfl

theorem metricsOf_maxDrawdown (sqrtFn : ℚ → ℚ) (powFn : ℚ → ℚ → ℚ) (b : String)
    (pts : List BacktestDataPoint) (cum : ℚ) :
    (metricsOf sqrtFn powFn b pts cum).maxDrawdown
      = maxDrawdownOf (pts.map (fun p => p.cumulativeStrategy)) * 100 := rfl

theorem metricsOf_sharpe (sqrtFn : ℚ → ℚ) (powFn : ℚ → ℚ → ℚ) (b : String)
    (pts : List BacktestDataPoint) (cum : ℚ) :
    (metricsOf sqrtFn powFn b pts cum).sharpeRatio
      = (avgReturnOf (pts.map (fun p => p.strategyReturn)) * daysInYear b)
        / (stdDevOf sqrtFn (pts.map (fun p => p.strategyReturn)) * sqrtFn (daysInYear b)) := rfl

/-! ### Concrete signal scores used in witnesses and counterexamples -/

theorem score_j1 : signalScore "j" "2024-01-02" = (180748 : ℚ)/233280 := by
  have h : charSum ("j" ++ "2024-01-02") = 591 := by decide
  simp only [signalScore, h]
  norm_num

theorem score_j2 : signalScore "j" "2024-01-03" = (190049 : ℚ)/233280 := by
  have h : charSum ("j" ++ "2024-01-03") = 592 := by decide
  simp only [signalScore, h]
  norm_num

theorem score_a1 : signalScore "a" "2024-01-02" = (97039 : ℚ)/233280 := by
  have h : charSum ("a" ++ "2024-01-02") = 582 := by decide
  simp only [signalScore, h]
  norm_num

theorem score_a2 : signalScore "a" "2024-01-03" = (106340 : ℚ)/233280 := by
  have h : charSum ("a" ++ "2024-01-03") = 583 := by decide
  simp only [signalScore, h]
  norm_num

/-! ### The claims -/

/-- Claim C4: for every input price series, the number of `BacktestDataPoint`
entries in the result's `data` array equals the length of the price series
minus 1 (with truncated subtraction covering the empty series). -/
theorem claim_C4 (sqrtFn : ℚ → ℚ) (powFn : ℚ → ℚ → ℚ) (f : String)
    (ps : List PricePoint) (b : String) :
    (runRealBacktest sqrtFn powFn f ps b).data.length = ps.length - 1 := by
  rw [runRealBacktest_data]
  cases ps with
  | nil => rfl
  | cons p rest =>
    show (simLoop f p rest initState).points.length = (p :: rest).length - 1
    rw [simLoop_points_len]
    simp [initState]

/-- Claim C7: on the 3-day series [100, 110, 99] with a BUY signal on day 2
and a SELL signal on day 3, the trade reconstructor emits exactly one BUY at
price 110 with quantity 100/110 = 10/11 (amount 100) followed by one SELL at
price 99 with amount (100/110) × 99 = 90, the final cash. -/
theorem claim_C7 :
    buildLongOnlyTrades
        [⟨"2024-01-02", 1/10, 0, 110, 100, some Signal.BUY⟩,
         ⟨"2024-01-03", -1/10, -1/10, 99, 90, some Signal.SELL⟩]
        [⟨"2024-01-01", 100⟩, ⟨"2024-01-02", 110⟩, ⟨"2024-01-03", 99⟩]
      = [⟨"2024-01-02", Signal.BUY, 110, 10/11, 100⟩,
         ⟨"2024-01-03", Signal.SELL, 99, 10/11, 90⟩] := by
  have e1 : ("2024-01-02" == "2024-01-01") = false := by decide
  have e2 : ("2024-01-03" == "2024-01-01") = false := by decide
  have e3 : ("2024-01-03" == "2024-01-02") = false := by decide
  have e4 : ("2024-01-02" == "2024-01-02") = true := by decide
  have e5 : ("2024-01-03" == "2024-01-03") = true := by decide
  norm_num [buildLongOnlyTrades, priceMapOf, pmInsert, initTradeState, tradeStep, List.lookup,
    e1, e2, e3, e4, e5]

/-! ### Finalization behaviour of the trade reconstructor -/

theorem buildLongOnlyTrades_alt (data : List BacktestDataPoint) (ps : List PricePoint) :
    alternatesFromBuy (buildLongOnlyTrades data ps) = true := by
  obtain ⟨h1, h2, h3, h4⟩ :=
    foldl_tradeStep_ok (priceMapOf ps) data initTradeState initTradeState_ok
  unfold alternatesFromBuy
  simp only [buildLongOnlyTrades]
  split_ifs with hcond
  · cases hl : data.getLast? with
    | none => exact h1
    | some lp =>
      dsimp only
      cases hlk : (priceMapOf ps).lookup lp.date with
      | none => exact h1
      | some price =>
        dsimp only
        split_ifs with hpq
        · have hledger : ledgerOk true
              ((data.foldl (tradeStep (priceMapOf ps)) initTradeState).trades) := by
            refine ⟨h1, ?_⟩
            rw [hcond.1] at h2
            exact h2
          exact (ledgerOk_append_sell _ hledger _ rfl).1
        · exact h1
  · exact h1

theorem buildLongOnlyTrades_forceClose (data : List BacktestDataPoint) (ps : List PricePoint)
    (lp : BacktestDataPoint) (price : ℚ)
    (hpos : (data.foldl (tradeStep (priceMapOf ps)) initTradeState).position = true)
    (hlast : data.getLast? = some lp)
    (hlk : (priceMapOf ps).lookup lp.date = some price) :
    buildLongOnlyTrades data ps
      = (data.foldl (tradeStep (priceMapOf ps)) initTradeState).trades
        ++ [⟨lp.date, Signal.SELL, price,
            (data.foldl (tradeStep (priceMapOf ps)) initTradeState).holdings,
            (data.foldl (tradeStep (priceMapOf ps)) initTradeState).holdings * price⟩] := by
  have hne : data ≠ [] := by
    intro hc; rw [hc] at hlast; simp at hlast
  have hq : 0 < price := priceMapOf_lookup_pos ps lp.date price hlk
  have hh : 0 < (data.foldl (tradeStep (priceMapOf ps)) initTradeState).holdings :=
    (foldl_tradeStep_ok (priceMapOf ps) data initTradeState initTradeState_ok).2.2.1 hpos
  simp only [buildLongOnlyTrades]
  rw [if_pos ⟨hpos, hne⟩, hlast]
  simp only [hlk]
  rw [if_pos ⟨hq, hh⟩]

theorem buildLongOnlyTrades_noClose (data : List BacktestDataPoint) (ps : List PricePoint)
    (lp : BacktestDataPoint)
    (hpos : (data.foldl (tradeStep (priceMapOf ps)) initTradeState).position = true)
    (hlast : data.getLast? = some lp)
    (hlk : (priceMapOf ps).lookup lp.date = none) :
    buildLongOnlyTrades data ps
      = (data.foldl (tradeStep (priceMapOf ps)) initTradeState).trades := by
  have hne : data ≠ [] := by
    intro hc; rw [hc] at hlast; simp at hlast
  simp only [buildLongOnlyTrades]
  rw [if_pos ⟨hpos, hne⟩, hlast]
  simp only [hlk]

/-- Claim C1 (counterexample): on the 2-day series [100, 100] with formula
"j", the day-2 signal score 180748/233280 ≈ 0.775 exceeds 0.7, so the
simulator buys on the final day and ends LONG — yet its trade list ends with
that BUY: `runRealBacktest` never appends a synthetic closing SELL. -/
theorem claim_C1_counterexample :
    (runState "j" [⟨"2024-01-01", 100⟩, ⟨"2024-01-02", 100⟩]).position = true ∧
    ((runRealBacktest (fun q => q) (fun q _ => q) "j"
        [⟨"2024-01-01", 100⟩, ⟨"2024-01-02", 100⟩] "BTC-USD").trades.map Trade.type).getLast?
      = some Signal.BUY ∧
    Signal.BUY ≠ Signal.SELL := by
  refine ⟨?_, ?_, by decide⟩
  · simp only [runState, simLoop, step, score_j1]
    norm_num [finishDay, initState]
  · rw [runRealBacktest_trades]
    simp only [runState, simLoop, step, score_j1]
    norm_num [finishDay, initState]

/-- Claim C1 (amended): in both the simulator and the trade reconstructor the
trade list strictly alternates BUY, SELL, … starting with BUY.  The
reconstructor force-closes an open position with a synthetic SELL dated on
the last data point whenever that date has a usable price; the simulator
never force-closes, so when its state machine ends LONG its trade list ends
with the opening BUY instead of a synthetic SELL. -/
theorem claim_C1_amended :
    (∀ (sqrtFn : ℚ → ℚ) (powFn : ℚ → ℚ → ℚ) (f : String) (ps : List PricePoint) (b : String),
      alternatesFromBuy (runRealBacktest sqrtFn powFn f ps b).trades = true) ∧
    (∀ (data : List BacktestDataPoint) (ps : List PricePoint),
      alternatesFromBuy (buildLongOnlyTrades data ps) = true) ∧
    (∀ (f : String) (ps : List PricePoint), (runState f ps).position = true →
      ((runState f ps).trades.map Trade.type).getLast? = some Signal.BUY) ∧
    (∀ (data : List BacktestDataPoint) (ps : List PricePoint)
        (lp : BacktestDataPoint) (price : ℚ),
      (data.foldl (tradeStep (priceMapOf ps)) initTradeState).position = true →
      data.getLast? = some lp →
      (priceMapOf ps).lookup lp.date = some price →
      (buildLongOnlyTrades data ps).getLast?
        = some ⟨lp.date, Signal.SELL, price,
            (data.foldl (tradeStep (priceMapOf ps)) initTradeState).holdings,
            (data.foldl (tradeStep (priceMapOf ps)) initTradeState).holdings * price⟩) := by
  refine ⟨?_, ?_, ?_, ?_⟩
  · intro sqrtFn powFn f ps b
    rw [runRealBacktest_trades]
    exact (runState_ledger f ps).1
  · intro data ps
    exact buildLongOnlyTrades_alt data ps
  · intro f ps hpos
    have h := runState_ledger f ps
    rw [hpos] at h
    exact ledgerOk_getLast_buy _ h
  · intro data ps lp price hpos hlast hlk
    rw [buildLongOnlyTrades_forceClose data ps lp price hpos hlast hlk]
    exact List.getLast?_concat _

/-- Witness for claim C1 (amended): concrete instantiations of the two
hypothesis-bearing conjuncts — a run of formula "j" that ends LONG with its
last trade a BUY, and a one-signal data stream whose open position is
force-closed by a synthetic SELL. -/
theorem claim_C1_witness :
    ((runState "j" [⟨"2024-01-01", 100⟩, ⟨"2024-01-02", 100⟩]).trades.map Trade.type).getLast?
      = some Signal.BUY ∧
    (buildLongOnlyTrades [⟨"2024-01-02", 0, 0, 100, 100, some Signal.BUY⟩]
        [⟨"2024-01-02", 100⟩]).getLast?
      = some ⟨"2024-01-02", Signal.SELL, 100, 1, 100⟩ := by
  have e4 : ("2024-01-02" == "2024-01-02") = true := by decide
  have hfold :
      ([⟨"2024-01-02", 0, 0, 100, 100, some Signal.BUY⟩] :
          List BacktestDataPoint).foldl (tradeStep (priceMapOf [⟨"2024-01-02", 100⟩]))
          initTradeState
        = ⟨[⟨"2024-01-02", Signal.BUY, 100, 1, 100⟩], true, 0, 1⟩ := by
    norm_num [tradeStep, priceMapOf, pmInsert, initTradeState, List.lookup, e4]
  constructor
  · refine claim_C1_amended.2.2.1 "j" [⟨"2024-01-01", 100⟩, ⟨"2024-01-02", 100⟩] ?_
    simp only [runState, simLoop, step, score_j1]
    norm_num [finishDay, initState]
  · have h := claim_C1_amended.2.2.2
      [⟨"2024-01-02", 0, 0, 100, 100, some Signal.BUY⟩] [⟨"2024-01-02", 100⟩]
      ⟨"2024-01-02", 0, 0, 100, 100, some Signal.BUY⟩ 100
      (by rw [hfold]) rfl
      (by norm_num [priceMapOf, pmInsert, List.lookup, e4])
    rw [hfold] at h
    simpa using h

/-- Claim C2 (counterexample): on a 3-day series where formula "j" buys on
day 2 and the price then rises, exactly one of the two recorded days has a
positive strategy return, and the reported winRate is 50 — a percentage,
not a fraction in [0, 1]. -/
theorem claim_C2_counterexample :
    (runRealBacktest (fun q => q) (fun q _ => q) "j"
        [⟨"2024-01-01", 100⟩, ⟨"2024-01-02", 100⟩, ⟨"2024-01-03", 110⟩] "BTC-USD").metrics.winRate
      = 50 ∧ ¬((50 : ℚ) ≤ 1) := by
  refine ⟨?_, by norm_num⟩
  rw [runRealBacktest_metrics, metricsOf_winRate]
  have hrun : (runState "j" [⟨"2024-01-01", 100⟩, ⟨"2024-01-02", 100⟩, ⟨"2024-01-03", 110⟩]).points
      = [⟨"2024-01-02", 0, 0, 100, 100, some Signal.BUY⟩,
         ⟨"2024-01-03", 1/10, 1/10, 110, 110, none⟩] := by
    simp only [runState, simLoop, step, score_j1, score_j2]
    norm_num [finishDay, initState]
  rw [hrun]
  norm_num [List.filter]

/-- Claim C2 (amended): the percentage-scale metrics are reported scaled by
100 (percentage points, not fractions); in particular winRate always lies in
[0, 100] whenever at least one data point exists. -/
theorem claim_C2_amended (sqrtFn : ℚ → ℚ) (powFn : ℚ → ℚ → ℚ) (f : String)
    (ps : List PricePoint) (b : String)
    (h : (runRealBacktest sqrtFn powFn f ps b).data ≠ []) :
    0 ≤ (runRealBacktest sqrtFn powFn f ps b).metrics.winRate ∧
      (runRealBacktest sqrtFn powFn f ps b).metrics.winRate ≤ 100 := by
  rw [runRealBacktest_data] at h
  rw [runRealBacktest_metrics, metricsOf_winRate]
  have hn : 0 < ((runState f ps).points.length : ℚ) := by
    have := List.length_pos.mpr h
    exact_mod_cast this
  have hk : ((((runState f ps).points.map (fun p => p.strategyReturn)).filter
        (fun r => 0 < r)).length : ℚ) ≤ ((runState f ps).points.length : ℚ) := by
    have h1 := List.length_filter_le (fun r => decide (0 < r))
      ((runState f ps).points.map (fun p => p.strategyReturn))
    rw [List.length_map] at h1
    exact_mod_cast h1
  constructor
  · positivity
  · have hdiv : ((((runState f ps).points.map (fun p => p.strategyReturn)).filter
        (fun r => 0 < r)).length : ℚ) / ((runState f ps).points.length : ℚ) ≤ 1 :=
      (div_le_one hn).mpr hk
    calc ((((runState f ps).points.map (fun p => p.strategyReturn)).filter
            (fun r => 0 < r)).length : ℚ) / ((runState f ps).points.length : ℚ) * 100
        ≤ 1 * 100 := by
          apply mul_le_mul_of_nonneg_right hdiv
          norm_num
      _ = 100 := by norm_num

/-- Witness for claim C2 (amended): on a concrete 2-day series the data is
nonempty and the winRate bounds follow by the amended claim. -/
theorem claim_C2_witness :
    0 ≤ (runRealBacktest (fun q => q) (fun q _ => q) "a"
        [⟨"2024-01-01", 100⟩, ⟨"2024-01-02", 100⟩] "BTC-USD").metrics.winRate ∧
    (runRealBacktest (fun q => q) (fun q _ => q) "a"
        [⟨"2024-01-01", 100⟩, ⟨"2024-01-02", 100⟩] "BTC-USD").metrics.winRate ≤ 100 := by
  refine claim_C2_amended _ _ _ _ _ ?_
  rw [runRealBacktest_data]
  have hlen : (runState "a" [⟨"2024-01-01", 100⟩, ⟨"2024-01-02", 100⟩]).points.length = 1 := by
    show (simLoop "a" ⟨"2024-01-01", 100⟩ [⟨"2024-01-02", 100⟩] initState).points.length = 1
    rw [simLoop_points_len]
    rfl
  intro hc
  rw [hc] at hlen
  simp at hlen

/-- Claim C3 (counterexample): the day-return computation `(curr - prev) / prev`
at a zero denominator (prior close 0, current close 1) evaluates under IEEE
semantics to +Infinity, not to the claimed 0. -/
theorem claim_C3_counterexample :
    jsBenchReturn 0 1 = JSNum.posInf ∧ JSNum.posInf ≠ JSNum.fin 0 := by
  constructor
  · norm_num [jsBenchReturn, jsDiv]
  · intro h
    exact absurd h (by simp)

/-- Claim C3 (amended): the code performs unguarded division, so a zero
denominator yields NaN or ±Infinity, never 0; however, on any price series
with strictly positive closes every denominator the simulator uses (the
prior close, the base 100 and every recorded cumulative strategy value) is
positive, so every division is finite and agrees with the exact rational
quotient. -/
theorem claim_C3_amended (f : String) (ps : List PricePoint)
    (hpos : ∀ p ∈ ps, 0 < p.close) :
    (∀ pt ∈ (runState f ps).points, 0 < pt.cumulativeStrategy) ∧
    0 < (runState f ps).prevCum ∧
    (∀ a b : ℚ, b ≠ 0 → jsDiv a b = JSNum.fin (a / b)) ∧
    (∀ a b : ℚ, b = 0 → (jsDiv a b).isFinite = false) := by
  refine ⟨(runState_pos f ps hpos).2.2.2, (runState_pos f ps hpos).1, ?_, ?_⟩
  · intro a b hb
    simp [jsDiv, hb]
  · intro a b hb
    subst hb
    simp only [jsDiv, if_pos rfl]
    split_ifs <;> rfl

/-- Witness for claim C3 (amended) at a concrete positive-close series. -/
theorem claim_C3_witness :
    0 < (runState "a" [⟨"2024-01-01", 100⟩, ⟨"2024-01-02", 100⟩]).prevCum ∧
    jsDiv 1 2 = JSNum.fin (1 / 2) := by
  have hall : ∀ p ∈ ([⟨"2024-01-01", 100⟩, ⟨"2024-01-02", 100⟩] : List PricePoint),
      0 < p.close := by
    intro p hp
    rcases List.mem_cons.mp hp with h | hp2
    · rw [h]; norm_num
    · rcases List.mem_cons.mp hp2 with h | hp3
      · rw [h]; norm_num
      · simp at hp3
  have h := claim_C3_amended "a" [⟨"2024-01-01", 100⟩, ⟨"2024-01-02", 100⟩] hall
  exact ⟨h.2.1, h.2.2.1 1 2 (by norm_num)⟩

/-- Claim C5: the maxDrawdown metric is always nonnegative, and equals 0
whenever the cumulative strategy series is non-decreasing throughout. -/
theorem claim_C5 (sqrtFn : ℚ → ℚ) (powFn : ℚ → ℚ → ℚ) (f : String)
    (ps : List PricePoint) (b : String) :
    0 ≤ (runRealBacktest sqrtFn powFn f ps b).metrics.maxDrawdown ∧
    (List.Chain' (· ≤ ·)
        ((runRealBacktest sqrtFn powFn f ps b).data.map (fun p => p.cumulativeStrategy)) →
      (runRealBacktest sqrtFn powFn f ps b).metrics.maxDrawdown = 0) := by
  rw [runRealBacktest_metrics, metricsOf_maxDrawdown, runRealBacktest_data]
  constructor
  · exact mul_nonneg
      (maxDrawdownOf_nonneg ((runState f ps).points.map (fun p => p.cumulativeStrategy)))
      (by norm_num)
  · intro hch
    rw [maxDrawdownOf_chain _ hch, zero_mul]

/-- Witness for claim C5: a concrete 2-day flat run whose single-point
cumulative strategy series is trivially non-decreasing, so maxDrawdown is 0. -/
theorem claim_C5_witness :
    (runRealBacktest (fun q => q) (fun q _ => q) "a"
        [⟨"2024-01-01", 100⟩, ⟨"2024-01-02", 100⟩] "BTC-USD").metrics.maxDrawdown = 0 := by
  apply (claim_C5 (fun q => q) (fun q _ => q) "a"
    [⟨"2024-01-01", 100⟩, ⟨"2024-01-02", 100⟩] "BTC-USD").2
  rw [runRealBacktest_data]
  have hpts : (runState "a" [⟨"2024-01-01", 100⟩, ⟨"2024-01-02", 100⟩]).points
      = [⟨"2024-01-02", 0, 0, 100, 100, none⟩] := by
    simp only [runState, simLoop, step, score_a1]
    norm_num [finishDay, initState]
  rw [hpts]
  simp

/-- Claim C6: when the variance of the daily strategy returns is exactly 0
the `|| 0.0001` floor replaces the zero standard deviation, and the Sharpe
ratio is a finite number (`JSNum.fin`, never NaN or ±Infinity).  `sqrtFn`
abstracts `Math.sqrt` via the two properties used (`sqrt 0 = 0` and
positivity on positive inputs); the length and close-positivity hypotheses
record the regime in which the rational embedding is exact. -/
theorem claim_C6 (sqrtFn : ℚ → ℚ) (powFn : ℚ → ℚ → ℚ) (f : String)
    (ps : List PricePoint) (b : String)
    (h0 : sqrtFn 0 = 0) (hmono : ∀ q : ℚ, 0 < q → 0 < sqrtFn q)
    (hlen : 2 ≤ ps.length) (hc : ∀ p ∈ ps, 0 < p.close)
    (hvar : varianceOf
        ((runRealBacktest sqrtFn powFn f ps b).data.map (fun p => p.strategyReturn)) = 0) :
    stdDevOf sqrtFn
        ((runRealBacktest sqrtFn powFn f ps b).data.map (fun p => p.strategyReturn)) = 1/10000 ∧
    jsDiv
        (avgReturnOf ((runRealBacktest sqrtFn powFn f ps b).data.map (fun p => p.strategyReturn))
          * daysInYear b)
        (stdDevOf sqrtFn ((runRealBacktest sqrtFn powFn f ps b).data.map
            (fun p => p.strategyReturn))
          * sqrtFn (daysInYear b))
      = JSNum.fin ((runRealBacktest sqrtFn powFn f ps b).metrics.sharpeRatio) := by
  have hstd : stdDevOf sqrtFn
      ((runRealBacktest sqrtFn powFn f ps b).data.map (fun p => p.strategyReturn)) = 1/10000 := by
    simp only [stdDevOf, hvar, h0]
    norm_num
  have hd : 0 < daysInYear b := by
    unfold daysInYear
    split_ifs <;> norm_num
  have hden : stdDevOf sqrtFn
        ((runRealBacktest sqrtFn powFn f ps b).data.map (fun p => p.strategyReturn))
      * sqrtFn (daysInYear b) ≠ 0 := by
    rw [hstd]
    exact ne_of_gt (mul_pos (by norm_num) (hmono _ hd))
  refine ⟨hstd, ?_⟩
  rw [runRealBacktest_metrics, metricsOf_sharpe]
  rw [runRealBacktest_data] at hden ⊢
  simp only [jsDiv, if_neg hden]

/-- Witness for claim C6: a flat 3-day series under formula "a" produces two
zero returns, hence zero variance, and the epsilon-floored Sharpe ratio is
finite. -/
theorem claim_C6_witness :
    stdDevOf (fun q => if q ≤ 0 then 0 else 1)
        ((runRealBacktest (fun q => if q ≤ 0 then 0 else 1) (fun q _ => q) "a"
          [⟨"2024-01-01", 100⟩, ⟨"2024-01-02", 100⟩, ⟨"2024-01-03", 100⟩] "BTC-USD").data.map
            (fun p => p.strategyReturn)) = 1/10000 ∧
    jsDiv
        (avgReturnOf ((runRealBacktest (fun q => if q ≤ 0 then 0 else 1) (fun q _ => q) "a"
            [⟨"2024-01-01", 100⟩, ⟨"2024-01-02", 100⟩, ⟨"2024-01-03", 100⟩] "BTC-USD").data.map
              (fun p => p.strategyReturn)) * daysInYear "BTC-USD")
        (stdDevOf (fun q => if q ≤ 0 then 0 else 1)
            ((runRealBacktest (fun q => if q ≤ 0 then 0 else 1) (fun q _ => q) "a"
              [⟨"2024-01-01", 100⟩, ⟨"2024-01-02", 100⟩, ⟨"2024-01-03", 100⟩] "BTC-USD").data.map
                (fun p => p.strategyReturn))
          * (fun q => if q ≤ 0 then 0 else 1) (daysInYear "BTC-USD"))
      = JSNum.fin ((runRealBacktest (fun q => if q ≤ 0 then 0 else 1) (fun q _ => q) "a"
          [⟨"2024-01-01", 100⟩, ⟨"2024-01-02", 100⟩, ⟨"2024-01-03", 100⟩] "BTC-USD").metrics.sharpeRatio) := by
  apply claim_C6
  · norm_num
  · intro q hq
    rw [if_neg (not_le.mpr hq)]
    norm_num
  · norm_num
  · intro p hp
    rcases List.mem_cons.mp hp with h | hp2
    · rw [h]; norm_num
    · rcases List.mem_cons.mp hp2 with h | hp3
      · rw [h]; norm_num
      · rcases List.mem_cons.mp hp3 with h | hp4
        · rw [h]; norm_num
        · simp at hp4
  · rw [runRealBacktest_data]
    have hpts : (runState "a"
          [⟨"2024-01-01", 100⟩, ⟨"2024-01-02", 100⟩, ⟨"2024-01-03", 100⟩]).points
        = [⟨"2024-01-02", 0, 0, 100, 100, none⟩, ⟨"2024-01-03", 0, 0, 100, 100, none⟩] := by
      simp only [runState, simLoop, step, score_a1, score_a2]
      norm_num [finishDay, initState]
    rw [hpts]
    norm_num [varianceOf, avgReturnOf]

/-- The signal stored for a day is a function of the position flag and the
day's signal score only. -/
theorem step_last_signal (f : String) (prev curr : PricePoint) (st : SimState) :
    ((step f prev curr st).points.map (fun p => p.signal)).getLast?
      = some (if st.position = false ∧ (7 : ℚ)/10 < signalScore f curr.date then some Signal.BUY
          else if st.position = true ∧ signalScore f curr.date < (3 : ℚ)/10 then some Signal.SELL
          else none) := by
  rcases step_cases f prev curr st with ⟨h1, h2, heq⟩ | ⟨h1, h2, heq⟩ | ⟨h1, h2, heq⟩ <;>
    rw [heq, finishDay_points] <;>
    simp only [List.map_append, List.map_cons, List.map_nil, List.getLast?_concat]
  · rw [if_pos ⟨h1, h2⟩]
  · have hn1 : ¬(st.position = false ∧ (7 : ℚ)/10 < signalScore f curr.date) := by
      intro hc
      rw [h1] at hc
      exact absurd hc.1 (by simp)
    rw [if_neg hn1, if_pos ⟨h1, h2⟩]
  · rw [if_neg h1, if_neg h2]

/-- Claim C8: the scripted simulator is deterministic (a pure function of its
inputs), the day's signal score is a pure function of the formula and the
day's date string — independent of where the date sits in the series — and
the signal a step emits depends only on the date and the position flag, not
on prices, cash or window position. -/
theorem claim_C8 :
    (∀ (sqrtFn : ℚ → ℚ) (powFn : ℚ → ℚ → ℚ) (f : String) (ps : List PricePoint) (b : String),
      runRealBacktest sqrtFn powFn f ps b = runRealBacktest sqrtFn powFn f ps b) ∧
    (∀ (f : String) (ps1 ps2 : List PricePoint) (i : Fin ps1.length) (j : Fin ps2.length),
      (ps1.get i).date = (ps2.get j).date →
      signalScore f (ps1.get i).date = signalScore f (ps2.get j).date) ∧
    (∀ (f : String) (prev prev2 curr curr2 : PricePoint) (st st2 : SimState),
      curr.date = curr2.date → st.position = st2.position →
      ((step f prev curr st).points.map (fun p => p.signal)).getLast?
        = ((step f prev2 curr2 st2).points.map (fun p => p.signal)).getLast?) := by
  refine ⟨fun _ _ _ _ _ => rfl, fun f ps1 ps2 i j h => by rw [h], ?_⟩
  intro f prev prev2 curr curr2 st st2 hdate hpos
  rw [step_last_signal, step_last_signal, hdate, hpos]

/-- Witness for claim C8: the same calendar date at position 0 of one series
and position 1 of a different series yields the same signal score. -/
theorem claim_C8_witness :
    signalScore "j" (([⟨"2024-01-02", 100⟩] : List PricePoint).get ⟨0, by norm_num⟩).date
      = signalScore "j"
          (([⟨"2024-01-01", 1⟩, ⟨"2024-01-02", 3⟩] : List PricePoint).get ⟨1, by norm_num⟩).date :=
  claim_C8.2.1 "j" [⟨"2024-01-02", 100⟩] [⟨"2024-01-01", 1⟩, ⟨"2024-01-02", 3⟩]
    ⟨0, by norm_num⟩ ⟨1, by norm_num⟩ rfl

/-- Claim C9: in the trade reconstructor, a signal on a date whose close is
absent from the price series (or only present with a non-positive close) is
silently skipped with the state unchanged, and the synthetic final SELL is
omitted entirely when the last data point's date has no usable price — in
which case the ledger ends with a BUY. -/
theorem claim_C9 :
    (∀ (ps : List PricePoint) (st : TradeState) (pt : BacktestDataPoint) (s : Signal),
      pt.signal = some s → (∀ p ∈ ps, p.date = pt.date → p.close ≤ 0) →
      tradeStep (priceMapOf ps) st pt = st) ∧
    (∀ (data : List BacktestDataPoint) (ps : List PricePoint) (lp : BacktestDataPoint),
      (data.foldl (tradeStep (priceMapOf ps)) initTradeState).position = true →
      data.getLast? = some lp →
      (∀ p ∈ ps, p.date = lp.date → p.close ≤ 0) →
      buildLongOnlyTrades data ps
          = (data.foldl (tradeStep (priceMapOf ps)) initTradeState).trades ∧
        ((buildLongOnlyTrades data ps).map Trade.type).getLast? = some Signal.BUY) := by
  constructor
  · intro ps st pt s hsig hbad
    have hnone : (priceMapOf ps).lookup pt.date = none :=
      priceMapOf_lookup_none ps pt.date hbad
    unfold tradeStep
    rw [hsig]
    dsimp only
    rw [hnone]
  · intro data ps lp hpos hlast hbad
    have hnone : (priceMapOf ps).lookup lp.date = none :=
      priceMapOf_lookup_none ps lp.date hbad
    have heq := buildLongOnlyTrades_noClose data ps lp hpos hlast hnone
    refine ⟨heq, ?_⟩
    rw [heq]
    obtain ⟨hk1, hk2, _, _⟩ := foldl_tradeStep_ok (priceMapOf ps) data initTradeState
      initTradeState_ok
    have hledger : ledgerOk true
        ((data.foldl (tradeStep (priceMapOf ps)) initTradeState).trades) := by
      refine ⟨hk1, ?_⟩
      rw [hpos] at hk2
      exact hk2
    exact ledgerOk_getLast_buy _ hledger

/-- Witness for claim C9: a BUY on a priced day followed by a last day whose
date is absent from the price series leaves the ledger unfinalised, ending
in the BUY. -/
theorem claim_C9_witness :
    buildLongOnlyTrades
        [⟨"2024-01-02", 0, 0, 100, 100, some Signal.BUY⟩, ⟨"2024-01-03", 0, 0, 100, 100, none⟩]
        [⟨"2024-01-02", 100⟩]
      = (([⟨"2024-01-02", 0, 0, 100, 100, some Signal.BUY⟩,
          ⟨"2024-01-03", 0, 0, 100, 100, none⟩] : List BacktestDataPoint).foldl
          (tradeStep (priceMapOf [⟨"2024-01-02", 100⟩])) initTradeState).trades ∧
    ((buildLongOnlyTrades
        [⟨"2024-01-02", 0, 0, 100, 100, some Signal.BUY⟩, ⟨"2024-01-03", 0, 0, 100, 100, none⟩]
        [⟨"2024-01-02", 100⟩]).map Trade.type).getLast? = some Signal.BUY := by
  apply claim_C9.2
    [⟨"2024-01-02", 0, 0, 100, 100, some Signal.BUY⟩, ⟨"2024-01-03", 0, 0, 100, 100, none⟩]
    [⟨"2024-01-02", 100⟩]
    ⟨"2024-01-03", 0, 0, 100, 100, none⟩
  · have e4 : ("2024-01-02" == "2024-01-02") = true := by decide
    norm_num [tradeStep, priceMapOf, pmInsert, initTradeState, List.lookup, e4]
  · rfl
  · intro p hp hd
    rcases List.mem_cons.mp hp with h | hp2
    · rw [h] at hd
      exact absurd hd (by decide)
    · simp at hp2

/-- Claim C10: under strictly positive closes the per-day benchmark factors
telescope, so the k-th point's cumulativeBenchmark equals
100 × close(k+1) / close(0), independent of the path between the first and
the current close. -/
theorem claim_C10 (sqrtFn : ℚ → ℚ) (powFn : ℚ → ℚ → ℚ) (f : String) (b : String)
    (ps : List PricePoint) (hpos : ∀ p ∈ ps, 0 < p.close) (k : ℕ)
    (hk : k < (runRealBacktest sqrtFn powFn f ps b).data.length) :
    ((runRealBacktest sqrtFn powFn f ps b).data.getD k ⟨"", 0, 0, 0, 0, none⟩).cumulativeBenchmark
      = 100 * (ps.getD (k + 1) ⟨"", 0⟩).close / (ps.getD 0 ⟨"", 0⟩).close := by
  rw [runRealBacktest_data] at hk ⊢
  cases ps with
  | nil =>
    have : (runState f ([] : List PricePoint)).points = [] := rfl
    rw [this] at hk
    simp at hk
  | cons p0 rest =>
    have hne0 : p0.close ≠ 0 := ne_of_gt (hpos p0 (List.mem_cons_self p0 rest))
    have hner : ∀ p ∈ rest, p.close ≠ 0 :=
      fun p hp => ne_of_gt (hpos p (List.mem_cons_of_mem p0 hp))
    have hmap : (runState f (p0 :: rest)).points.map (fun p => p.cumulativeBenchmark)
        = rest.map (fun r => 100 * r.close / p0.close) := by
      show (simLoop f p0 rest initState).points.map (fun p => p.cumulativeBenchmark)
          = rest.map (fun r => 100 * r.close / p0.close)
      rw [simLoop_cumB_map f rest p0 initState hne0 hner]
      simp [initState]
    have hlen : (runState f (p0 :: rest)).points.length = rest.length := by
      show (simLoop f p0 rest initState).points.length = rest.length
      rw [simLoop_points_len]
      simp [initState]
    have hk2 : k < rest.length := by rw [hlen] at hk; exact hk
    have hk3 : k < ((runState f (p0 :: rest)).points.map
        (fun p => p.cumulativeBenchmark)).length := by
      rw [List.length_map]; exact hk
    have hk4 : k < (rest.map (fun r => 100 * r.close / p0.close)).length := by
      rw [List.length_map]; exact hk2
    calc ((runState f (p0 :: rest)).points.getD k ⟨"", 0, 0, 0, 0, none⟩).cumulativeBenchmark
        = ((runState f (p0 :: rest)).points.map (fun p => p.cumulativeBenchmark)).getD k 0 := by
          rw [List.getD_eq_getElem _ _ hk, List.getD_eq_getElem _ _ hk3, List.getElem_map]
      _ = (rest.map (fun r => 100 * r.close / p0.close)).getD k 0 := by rw [hmap]
      _ = 100 * (rest.getD k ⟨"", 0⟩).close / p0.close := by
          rw [List.getD_eq_getElem _ _ hk4, List.getD_eq_getElem _ _ hk2, List.getElem_map]
      _ = 100 * ((p0 :: rest).getD (k + 1) ⟨"", 0⟩).close / ((p0 :: rest).getD 0 ⟨"", 0⟩).close := by
          rw [List.getD_cons_succ, List.getD_cons_zero]

/-- Witness for claim C10 at the series [100, 110, 99] and k = 1. -/
theorem claim_C10_witness :
    ((runRealBacktest (fun q => q) (fun q _ => q) "a"
        [⟨"2024-01-01", 100⟩, ⟨"2024-01-02", 110⟩, ⟨"2024-01-03", 99⟩] "BTC-USD").data.getD 1
          ⟨"", 0, 0, 0, 0, none⟩).cumulativeBenchmark
      = 100 * (([⟨"2024-01-01", 100⟩, ⟨"2024-01-02", 110⟩, ⟨"2024-01-03", 99⟩] :
            List PricePoint).getD 2 ⟨"", 0⟩).close
        / (([⟨"2024-01-01", 100⟩, ⟨"2024-01-02", 110⟩, ⟨"2024-01-03", 99⟩] :
            List PricePoint).getD 0 ⟨"", 0⟩).close := by
  apply claim_C10
  · intro p hp
    rcases List.mem_cons.mp hp with h | hp2
    · rw [h]; norm_num
    · rcases List.mem_cons.mp hp2 with h | hp3
      · rw [h]; norm_num
      · rcases List.mem_cons.mp hp3 with h | hp4
        · rw [h]; norm_num
        · simp at hp4
  · rw [runRealBacktest_data]
    show 1 < (simLoop "a" ⟨"2024-01-01", 100⟩
        [⟨"2024-01-02", 110⟩, ⟨"2024-01-03", 99⟩] initState).points.length
    rw [simLoop_points_len]
    norm_num [initState]
